import Mathlib

/-! Verification of three auxiliary scripts of the `materialize` repository:

* `src/misc/bazel/build-info/gen_rust_module.py` — a code generator turning
  Bazel workspace-status key/value files into Rust constant declarations;
* `src/misc/python/materialize/cloudtest/k8s/api/k8s_resource.py` — a thin
  wrapper class issuing namespace-scoped `kubectl` commands;
* `src/test/mysql-cdc/mzcompose.py` — an integration-test workflow probing
  CDC snapshot consistency under concurrent writes.

The CDC merge/snapshot engine itself is not among the sources; where a claim
is about it, the component is modelled from the specification (each such
definition says so in its doc comment).

Files are modelled as lists of lines; process exit with an error message is
modelled as `Except`.
-/

set_option autoImplicit false

namespace GenRustModule

/-- Python's whitespace set for `str.strip()`:
space, tab, newline, carriage return, vertical tab, form feed. -/
def isPythonSpace (c : Char) : Bool :=
  c == ' ' || c == '\t' || c == '\n' || c == '\r' ||
    c == Char.ofNat 11 || c == Char.ofNat 12

/-- Python's `str.strip()`: remove leading and trailing whitespace. -/
def strip (s : String) : String :=
  String.mk (((s.data.dropWhile isPythonSpace).reverse.dropWhile
    isPythonSpace).reverse)

/-- Python's `str.upper()` on a single ASCII character. -/
def upperChar (c : Char) : Char :=
  if 'a' ≤ c ∧ c ≤ 'z' then Char.ofNat (c.toNat - 32) else c

/-- Python's `str.upper()` (restricted to the ASCII case mapping). -/
def upper (s : String) : String :=
  String.mk (s.data.map upperChar)

/-- The two fatal conditions of `parse_variable_file`: a key seen twice in the
same file, or a line with no value (no space character).  In the script both
print a message to stderr and call `sys.exit(1)`. -/
inductive ParseError where
  | duplicateKey (key : String) : ParseError
  | noValue (key : String) : ParseError
deriving DecidableEq, Repr

/-- Split a list of characters at the first space, like Python's
`line.split(" ", 1)`: the part before the first space, and — when a space
occurs — the part after it. -/
def splitFirstSpaceAux : List Char → List Char × Option (List Char)
  | [] => ([], none)
  | c :: cs =>
    if c = ' ' then ([], some cs)
    else
      let r := splitFirstSpaceAux cs
      (c :: r.1, r.2)

/-- Python's `line.split(" ", 1)` on strings: first component is the text before the
first space; second is `some` of the remainder exactly when the line contains
a space. -/
def splitFirstSpace (s : String) : String × Option String :=
  let r := splitFirstSpaceAux s.data
  (String.mk r.1, r.2.map String.mk)

/-- The loop body of `parse_variable_file`, with the accumulated variables
made explicit.  Mirrors the Python statement by statement: empty lines are
skipped; the line is split at the first space; the key is the stripped first
component; a key already present is a `duplicateKey` error (checked first); a
line without a space is a `noValue` error; otherwise the stripped value is
recorded.  Python dicts preserve insertion order, so the mapping is an
association list extended at the end. -/
def parseLines : List (String × String) → List String →
    Except ParseError (List (String × String))
  | acc, [] => Except.ok acc
  | acc, line :: rest =>
    if line = "" then parseLines acc rest
    else
      if strip (splitFirstSpace line).1 ∈ acc.map Prod.fst then
        Except.error (ParseError.duplicateKey (strip (splitFirstSpace line).1))
      else
        match (splitFirstSpace line).2 with
        | none => Except.error (ParseError.noValue (strip (splitFirstSpace line).1))
        | some v => parseLines (acc ++ [(strip (splitFirstSpace line).1, strip v)]) rest

/-- The script's `parse_variable_file(path)` with the file contents given as its list of
lines (Python's `f.read().splitlines(keepends=False)`). -/
def parse_variable_file (lines : List String) :
    Except ParseError (List (String × String)) :=
  parseLines [] lines

/-- One generated line of the output file:
`pub static KEY: &str = "value";` with the key uppercased, as written by the
loop body in `main`. -/
def declLine (k v : String) : String :=
  "pub static " ++ upper k ++ ": &str = \"" ++ v ++ "\";"

/-- The `for k, v in variables.items()` loop of `main`: one declaration line
per parsed pair, in insertion order. -/
def writeDecls (vars : List (String × String)) : List String :=
  vars.map (fun kv => declLine kv.1 kv.2)

/-- The script's `main`, with the two input files given as lists of lines and the written
output file as the list of its lines: parse the volatile file, parse the
stable file, then emit all volatile declarations followed by all stable
declarations. -/
def mainOutput (volatileLines stableLines : List String) :
    Except ParseError (List String) :=
  match parse_variable_file volatileLines with
  | Except.error e => Except.error e
  | Except.ok volatile_variables =>
    match parse_variable_file stableLines with
    | Except.error e => Except.error e
    | Except.ok stable_variables =>
      Except.ok (writeDecls volatile_variables ++ writeDecls stable_variables)

/-- The characters of a line strictly before its first space (the whole line
when it has no space).  Spec-side rendering for the claim about
`parse_variable_file`. -/
def beforeSpace : List Char → List Char
  | [] => []
  | c :: cs => if c = ' ' then [] else c :: beforeSpace cs

/-- The characters of a line strictly after its first space (empty when it
has no space).  Spec-side rendering. -/
def afterSpace : List Char → List Char
  | [] => []
  | c :: cs => if c = ' ' then cs else afterSpace cs

/-- The parsed key of a line: its stripped text before the first space. -/
def lineKey (l : String) : String :=
  strip (String.mk (beforeSpace l.data))

/-- Spec-side scan: walking the lines in order while remembering the keys
already seen, report the first fatal condition — a non-empty line whose
(parsed) key was already seen, checked first, or a non-empty line containing
no space character — or `none` when the whole file is clean. -/
def specFirstFailure : List String → List String → Option ParseError
  | _, [] => none
  | seen, line :: rest =>
    if line = "" then specFirstFailure seen rest
    else
      if lineKey line ∈ seen then some (ParseError.duplicateKey (lineKey line))
      else if ' ' ∈ line.data then specFirstFailure (lineKey line :: seen) rest
      else some (ParseError.noValue (lineKey line))

/-- Spec-side result mapping: each non-empty line contributes the pair of its
stripped text before the first space and its stripped remainder, in file
order. -/
def specMapping (lines : List String) : List (String × String) :=
  (lines.filter (fun l => l ≠ "")).map
    (fun l => (lineKey l, strip (String.mk (afterSpace l.data))))

/-- Spec-side rendering of `parse_variable_file`, as the claim states it: the
run is fatal exactly when the scan finds a bad line, and otherwise returns
the mapping of all non-empty lines. -/
def specParse (lines : List String) : Except ParseError (List (String × String)) :=
  match specFirstFailure [] lines with
  | some e => Except.error e
  | none => Except.ok (specMapping lines)

/-- Spec-side rendering generalized over already-seen keys and accumulated
pairs, used to state the induction for the equivalence proof. -/
def specParseFrom (seen : List String) (acc : List (String × String))
    (lines : List String) : Except ParseError (List (String × String)) :=
  match specFirstFailure seen lines with
  | some e => Except.error e
  | none => Except.ok (acc ++ specMapping lines)

end GenRustModule

namespace Cloudtest

/-- Modelled from the spec: the cluster-context name constant imported from
`materialize.cloudtest` (its defining module is not among the sources; the
claims use it only by name, so its value is irrelevant here). -/
def DEFAULT_K8S_CONTEXT_NAME : String := "kind-mzcloud"

/-- A `K8sResource` as built by `__init__(self, namespace)`: it stores the
namespace it was constructed with in `selected_namespace`. -/
structure K8sResource where
  selected_namespace : String
deriving DecidableEq, Repr

/-- Method `K8sResource.context()`: always the default context name. -/
def K8sResource.context (_ : K8sResource) : String :=
  DEFAULT_K8S_CONTEXT_NAME

/-- Method `K8sResource.namespace()`: the namespace selected at construction. -/
def K8sResource.«namespace» (r : K8sResource) : String :=
  r.selected_namespace

/-- The command list `K8sResource.kubectl(*args)` hands to
`subprocess.check_output`: the `kubectl` binary, `--context` with the
resource's context, `--namespace` with the resource's namespace, then the
caller's arguments. -/
def K8sResource.kubectl_cmd (r : K8sResource) (args : List String) :
    List String :=
  ["kubectl", "--context", r.context, "--namespace", r.«namespace»] ++ args

/-- Method `K8sResource.image(service, tag, release_mode)`.  The `tag is None`
branch resolves the image through the mzbuild repository; that code is not
among the sources, so it is abstracted as the argument `mzbuildResolve`,
applied to exactly the data the source feeds into that path: the release
mode, the `CI_COVERAGE_ENABLED` environment flag, and the service name. -/
def K8sResource.image (_ : K8sResource)
    (mzbuildResolve : Bool → Bool → String → String)
    (coverageEnv : Bool) (service : String) (tag : Option String)
    (release_mode : Bool) : String :=
  match tag with
  | some t => "materialize/" ++ service ++ ":" ++ t
  | none => mzbuildResolve release_mode coverageEnv service

end Cloudtest

namespace MysqlCdc

/-- The SQL text of one transaction of `_make_inserts`: reset the `@i`
counter, then insert `txn_size` sequentially numbered rows. -/
def insertTxnSql (txn_size : Nat) : String :=
  "\n            SET @i:=0;\n            INSERT INTO many_inserts (f2) SELECT @i:=@i+1 FROM mysql.time_zone t1, mysql.time_zone t2 LIMIT "
    ++ toString txn_size ++ ";\n            "

/-- Function `_make_inserts(txns=…, txn_size=…)`: the SQL of `txns` such transactions
joined with newlines, paired with the reported record count
`txns * txn_size`. -/
def make_inserts (txns txn_size : Nat) : String × Nat :=
  (String.intercalate "\n" ((List.range txns).map (fun _ => insertTxnSql txn_size)),
   txns * txn_size)

/-- In `workflow_many_inserts`: records loaded before creating the source,
`_make_inserts(txns=1, txn_size=1_000_000)`. -/
def initial_records : Nat := (make_inserts 1 1000000).2

/-- In `workflow_many_inserts`: records inserted concurrently with creating the
source, `_make_inserts(txns=1000, txn_size=100)`. -/
def concurrent_records : Nat := (make_inserts 1000 100).2

/-- The expected value of the verification query
`SELECT count(*) FROM many_inserts` in `workflow_many_inserts`. -/
def expected_count : Nat := initial_records + concurrent_records

/-- The externally observable steps of `workflow_many_inserts`, in the order
the function performs them: bring up the services, start the persistent
testdrive, load the initial records and set up the connection, start the
background insert thread (`insert_thread.start()`), create the source, join
the background thread (`insert_thread.join()`), and finally run the
row-count verification query. -/
inductive WorkflowStep where
  | upServices
  | upTestdrive
  | setupInitialRecords
  | startInsertThread
  | createSource
  | joinInsertThread
  | verifyCount
deriving DecidableEq, Repr

/-- The step sequence of `workflow_many_inserts`, transcribed from the
statement order of the function body. -/
def workflow_many_inserts_steps : List WorkflowStep :=
  [WorkflowStep.upServices,
   WorkflowStep.upTestdrive,
   WorkflowStep.setupInitialRecords,
   WorkflowStep.startInsertThread,
   WorkflowStep.createSource,
   WorkflowStep.joinInsertThread,
   WorkflowStep.verifyCount]

end MysqlCdc

namespace Cdc

/-! The CDC consistency subsystem (Snapshot Reader / Log Tailer / Merge
Coordinator) is not among the repository sources — only the test workflow
that probes it is.  The definitions in this namespace are therefore modelled
from the spec (its §3 data model and §4.3 merge algorithm), as their doc
comments state.
-/

/-- Primary key; opaque in the spec, `Nat` in the model. -/
abbrev PK := Nat

/-- Modelled from the spec: `HighWaterMark`, an opaque totally ordered log
position token; `Nat` in the model. -/
abbrev Mark := Nat

/-- Modelled from the spec (§3): a row is a primary-key-identified tuple
with a value payload. -/
structure Row where
  pk : PK
  payload : Nat
deriving DecidableEq, Repr

/-- Modelled from the spec (§3): the tag of a change event. -/
inductive ChangeKind where
  | insert
  | update
  | delete
deriving DecidableEq, Repr

/-- Modelled from the spec (§3): a `ChangeEvent` is a tagged variant over a
row, stamped with the mark at which it was committed. -/
structure ChangeEvent where
  kind : ChangeKind
  row : Row
  mark : Mark
deriving DecidableEq, Repr

/-- Lookup in an insertion-ordered association list keyed by primary key. -/
def lookupKey {β : Type} : List (PK × β) → PK → Option β
  | [], _ => none
  | e :: rest, k => if e.1 = k then some e.2 else lookupKey rest k

/-- Overwrite-or-append in an insertion-ordered association list: replace the
binding in place when the key is present, append it otherwise. -/
def setKey {β : Type} : List (PK × β) → PK → β → List (PK × β)
  | [], k, v => [(k, v)]
  | e :: rest, k, v => if e.1 = k then (k, v) :: rest else e :: setKey rest k v

/-- Remove a key from an insertion-ordered association list. -/
def delKey {β : Type} : List (PK × β) → PK → List (PK × β)
  | [], _ => []
  | e :: rest, k => if e.1 = k then delKey rest k else e :: delKey rest k

/-- Modelled from the spec (§4.3): the Merge Coordinator's internal state,
`mapping[PrimaryKey -> (Row, last_mark)]`. -/
abbrev CoordState := List (PK × Row × Mark)

/-- A plain materialized mapping from primary key to row (the shape of the
`SnapshotSet` and of the coordinator's materialized view). -/
abbrev View := List (PK × Row)

/-- Modelled from the spec (§4.3): the effect of one change event on the
coordinator state — insert and update overwrite the row and record the
event's mark as `last_mark`; delete removes the key. -/
def applyEffect (s : CoordState) (e : ChangeEvent) : CoordState :=
  match e.kind with
  | ChangeKind.insert => setKey s e.row.pk (e.row, e.mark)
  | ChangeKind.update => setKey s e.row.pk (e.row, e.mark)
  | ChangeKind.delete => delKey s e.row.pk

/-- Modelled from the spec (§4.3 algorithm): on event `E` with mark `m`
targeting key `k` — if `k` is absent or the stored `last_mark < m`, apply
`E`'s effect and set `last_mark = m`; else discard `E`. -/
def applyEvent (s : CoordState) (e : ChangeEvent) : CoordState :=
  match lookupKey s e.row.pk with
  | none => applyEffect s e
  | some rm => if rm.2 < e.mark then applyEffect s e else s

/-- Modelled from the spec (§3): the effect of a change event on a plain
key→row mapping, with no mark bookkeeping — the `⊕` of the §3 invariant. -/
def applyEffectPlain (v : View) (e : ChangeEvent) : View :=
  match e.kind with
  | ChangeKind.insert => setKey v e.row.pk e.row
  | ChangeKind.update => setKey v e.row.pk e.row
  | ChangeKind.delete => delKey v e.row.pk

/-- The coordinator's materialized view: its state with the `last_mark`s
forgotten. -/
def matView (s : CoordState) : View :=
  s.map (fun x => (x.1, x.2.1))

/-- Modelled from the spec (§4.3): the coordinator state right after
consuming the `SnapshotSet`: every snapshot row bound at `snapshot_mark`. -/
def initState (snap : View) (snapshot_mark : Mark) : CoordState :=
  snap.map (fun x => (x.1, x.2, snapshot_mark))

/-- Delivering a sequence of change events to the Merge Coordinator, in
order. -/
def deliver (s : CoordState) (evs : List ChangeEvent) : CoordState :=
  evs.foldl applyEvent s

/-- Applying a sequence of change events to a plain view, in order. -/
def applyAllPlain (v : View) (evs : List ChangeEvent) : View :=
  evs.foldl applyEffectPlain v

/-- The row count of a materialized view. -/
def rowCount (v : View) : Nat := v.length

/-- The row committed `i`-th (0-based) into `many_inserts` in the model of
the many-inserts scenario: the serial primary key is its position. -/
def rowOf (i : Nat) : Row := Row.mk i i

/-- Modelled from the spec: the change event recording the commit of row
`i`; the commit of row `i` carries mark `i + 1`, so marks strictly increase
in commit order. -/
def insertEventOf (i : Nat) : ChangeEvent :=
  ChangeEvent.mk ChangeKind.insert (rowOf i) (i + 1)

/-- Modelled from the spec: the snapshot set captured after the first `j`
row commits — rows `0 … j-1` — at snapshot mark `j`. -/
def snapRows (j : Nat) : View :=
  (List.range j).map (fun i => (i, rowOf i))

/-- Modelled from the spec: the events the Log Tailer delivers when the
snapshot was captured at mark `j` and `n` rows commit in total — the inserts
of rows `j … n-1`, in mark order, none at or before the snapshot mark. -/
def tailEvents (j n : Nat) : List ChangeEvent :=
  (List.range' j (n - j)).map insertEventOf

end Cdc

namespace Connector

/-- Modelled from the spec: the schema of the source table, opaque — a list
of column descriptions in the model. -/
abbrev Schema := List String

/-- Modelled from the spec (§8 restart scenario): the connector's state
during ingestion — the table schema it is working with and whether its
snapshot has completed.  The connector's own code is not among the sources;
only the orchestrating test `workflow_schema_change_restart` is. -/
structure ConnectorState where
  schema : Schema
  snapshotComplete : Bool
deriving DecidableEq, Repr

/-- Modelled from the spec: the source table, whose schema can be altered
while a snapshot is in progress. -/
structure SourceTable where
  schema : Schema
deriving DecidableEq, Repr

/-- Modelled from the spec scenario: applying a schema change to the source
table. -/
def alterSchema (_ : SourceTable) (s : Schema) : SourceTable :=
  SourceTable.mk s

/-- Modelled from the spec (§8): `a connector restarted mid-snapshot
(process killed, restarted) must re-detect any schema change applied before
the restart rather than silently using a stale schema` — on restart the
connector re-reads the source's current schema and begins a fresh
snapshot. -/
def restart (t : SourceTable) : ConnectorState :=
  ConnectorState.mk t.schema false

end Connector

namespace GenRustModule

theorem splitAux_fst (cs : List Char) :
    (splitFirstSpaceAux cs).1 = beforeSpace cs := by
  induction cs with
  | nil => rfl
  | cons c cs ih =>
    by_cases h : c = ' ' <;> simp [splitFirstSpaceAux, beforeSpace, h, ih]

theorem splitAux_snd (cs : List Char) :
    (splitFirstSpaceAux cs).2 =
      if ' ' ∈ cs then some (afterSpace cs) else none := by
  induction cs with
  | nil => rfl
  | cons c cs ih =>
    by_cases h : c = ' '
    · subst h; simp [splitFirstSpaceAux, afterSpace]
    · have hne : ¬ (' ' = c) := fun hh => h hh.symm
      simp [splitFirstSpaceAux, afterSpace, h, hne, ih]

theorem parseLines_eq_specFrom (lines : List String) :
    ∀ (acc : List (String × String)) (seen : List String),
      (∀ k, k ∈ acc.map Prod.fst ↔ k ∈ seen) →
      parseLines acc lines = specParseFrom seen acc lines := by
  induction lines with
  | nil =>
    intro acc seen _
    simp [parseLines, specParseFrom, specFirstFailure, specMapping]
  | cons line rest ih =>
    intro acc seen hseen
    by_cases hempty : line = ""
    · have hmap : specMapping (line :: rest) = specMapping rest := by
        simp [specMapping, hempty]
      calc parseLines acc (line :: rest) = parseLines acc rest := by
            rw [parseLines, if_pos hempty]
        _ = specParseFrom seen acc rest := ih acc seen hseen
        _ = specParseFrom seen acc (line :: rest) := by
            unfold specParseFrom
            rw [specFirstFailure, if_pos hempty, hmap]
    · have hkey : strip (splitFirstSpace line).1 = lineKey line := by
        simp [splitFirstSpace, lineKey, splitAux_fst]
      rw [parseLines, if_neg hempty, hkey]
      by_cases hdup : lineKey line ∈ seen
      · have hdup' : lineKey line ∈ acc.map Prod.fst := (hseen _).2 hdup
        rw [if_pos hdup']
        unfold specParseFrom
        rw [specFirstFailure, if_neg hempty, if_pos hdup]
      · have hdup' : lineKey line ∉ acc.map Prod.fst :=
          fun hm => hdup ((hseen _).1 hm)
        rw [if_neg hdup']
        by_cases hsp : ' ' ∈ line.data
        · have hsnd : (splitFirstSpace line).2 =
              some (String.mk (afterSpace line.data)) := by
            simp [splitFirstSpace, splitAux_snd, hsp]
          rw [hsnd]
          show parseLines
              (acc ++ [(lineKey line, strip (String.mk (afterSpace line.data)))])
              rest = _
          have hseen' : ∀ k,
              k ∈ (acc ++ [(lineKey line,
                strip (String.mk (afterSpace line.data)))]).map Prod.fst ↔
              k ∈ lineKey line :: seen := by
            intro k
            rw [List.map_append, List.mem_append, hseen k]
            simp [or_comm]
          rw [ih _ _ hseen']
          unfold specParseFrom
          have hF : specFirstFailure seen (line :: rest) =
              specFirstFailure (lineKey line :: seen) rest := by
            rw [specFirstFailure, if_neg hempty, if_neg hdup, if_pos hsp]
          rw [hF]
          have hmap : specMapping (line :: rest) =
              (lineKey line, strip (String.mk (afterSpace line.data))) ::
                specMapping rest := by
            simp [specMapping, lineKey, hempty]
          rw [hmap]
          cases specFirstFailure (lineKey line :: seen) rest with
          | some e => rfl
          | none => simp
        · have hsnd : (splitFirstSpace line).2 = none := by
            simp [splitFirstSpace, splitAux_snd, hsp]
          rw [hsnd]
          show Except.error (ParseError.noValue (lineKey line)) = _
          unfold specParseFrom
          rw [specFirstFailure, if_neg hempty, if_neg hdup, if_neg hsp]

/-- C7: whenever both variable files parse successfully, `main` writes to the
output file exactly one line per parsed key/value pair, of the form
`pub static KEY: &str = "value";` with the key uppercased, all volatile-file
declarations before all stable-file declarations, each group in its input
order. -/
theorem mainOutput_of_parse_ok (volatileLines stableLines : List String)
    (vs ss : List (String × String))
    (hv : parse_variable_file volatileLines = Except.ok vs)
    (hs : parse_variable_file stableLines = Except.ok ss) :
    mainOutput volatileLines stableLines =
      Except.ok
        (vs.map (fun kv =>
            "pub static " ++ upper kv.1 ++ ": &str = \"" ++ kv.2 ++ "\";") ++
         ss.map (fun kv =>
            "pub static " ++ upper kv.1 ++ ": &str = \"" ++ kv.2 ++ "\";")) := by
  unfold mainOutput
  rw [hv, hs]
  rfl

/-- Witness for C7 at concrete volatile file `["build_time 123"]` and stable
file `["git_sha abc"]`. -/
theorem mainOutput_of_parse_ok_witness :
    parse_variable_file ["build_time 123"] = Except.ok [("build_time", "123")] ∧
    parse_variable_file ["git_sha abc"] = Except.ok [("git_sha", "abc")] ∧
    mainOutput ["build_time 123"] ["git_sha abc"] =
      Except.ok
        ([("build_time", "123")].map (fun kv =>
            "pub static " ++ upper kv.1 ++ ": &str = \"" ++ kv.2 ++ "\";") ++
         [("git_sha", "abc")].map (fun kv =>
            "pub static " ++ upper kv.1 ++ ": &str = \"" ++ kv.2 ++ "\";")) :=
  ⟨rfl, rfl,
    mainOutput_of_parse_ok ["build_time 123"] ["git_sha abc"]
      [("build_time", "123")] [("git_sha", "abc")] rfl rfl⟩

/-- C8: duplicate-key detection is per input file only.  With the key
`build_sha` in both the volatile and the stable file, the program succeeds
and emits two `pub static` declarations with the same uppercased name, the
volatile one first. -/
theorem duplicate_key_across_files_accepted :
    mainOutput ["build_sha aaa"] ["build_sha bbb"] =
      Except.ok ["pub static BUILD_SHA: &str = \"aaa\";",
                 "pub static BUILD_SHA: &str = \"bbb\";"] := rfl

/-- C9: `parse_variable_file` exits with status 1 (modelled as
`Except.error`) iff scanning the lines in order reaches a non-empty line
whose parsed key (stripped text before the first space) duplicates a key
already seen in the same file, or a non-empty line containing no space
character; otherwise it returns the mapping from each non-empty line's
stripped text before the first space to the stripped remainder; on each line
the duplicate-key check precedes the missing-value check.  All of this is
packaged in the spec-side rendering `specParse`. -/
theorem parse_variable_file_eq_spec (lines : List String) :
    parse_variable_file lines = specParse lines := by
  have h := parseLines_eq_specFrom lines [] [] (by simp)
  unfold parse_variable_file
  rw [h]
  unfold specParseFrom specParse
  cases specFirstFailure [] lines with
  | some e => rfl
  | none => simp

end GenRustModule

namespace Cloudtest

/-- C6: every wrapped cluster operation is scoped to the construction-time
namespace — for a `K8sResource` constructed with namespace `n`,
`kubectl(*args)` executes exactly
`["kubectl", "--context", DEFAULT_K8S_CONTEXT_NAME, "--namespace", n]`
followed by the given arguments. -/
theorem kubectl_scoped_to_namespace (n : String) (args : List String) :
    (K8sResource.mk n).kubectl_cmd args =
      ["kubectl", "--context", DEFAULT_K8S_CONTEXT_NAME, "--namespace", n]
        ++ args := rfl

/-- C10: with a non-`None` tag, `image` returns exactly
`materialize/{service}:{tag}`; the `release_mode` argument, the
`CI_COVERAGE_ENABLED` environment flag and the mzbuild resolution path (the
abstracted resolver) have no effect on the result. -/
theorem image_with_tag (r r' : K8sResource)
    (f f' : Bool → Bool → String → String) (cov cov' : Bool)
    (service t : String) (rm rm' : Bool) :
    r.image f cov service (some t) rm
        = "materialize/" ++ service ++ ":" ++ t ∧
    r.image f cov service (some t) rm
        = r'.image f' cov' service (some t) rm' :=
  ⟨rfl, rfl⟩

end Cloudtest

namespace MysqlCdc

/-- C5: in `workflow_many_inserts` the background insert work is an explicit
thread handle (`insert_thread`) started before the source is created and
joined before the final row-count verification query, so the verification
step never runs concurrently with the background inserts. -/
theorem insert_thread_ordering :
    (workflow_many_inserts_steps.indexOf WorkflowStep.startInsertThread <
      workflow_many_inserts_steps.indexOf WorkflowStep.createSource) ∧
    (workflow_many_inserts_steps.indexOf WorkflowStep.createSource <
      workflow_many_inserts_steps.indexOf WorkflowStep.joinInsertThread) ∧
    (workflow_many_inserts_steps.indexOf WorkflowStep.joinInsertThread <
      workflow_many_inserts_steps.indexOf WorkflowStep.verifyCount) := by
  decide

end MysqlCdc

namespace Connector

/-- C4: if a schema change is applied to the source table before the
connector is restarted mid-snapshot, then after the restart the connector's
schema is the source's current (post-change) schema; in particular, whenever
the change is a real change relative to the connector's stale schema, the
restarted connector does not continue with the stale schema. -/
theorem restart_redetects_schema_change (c : ConnectorState)
    (t : SourceTable) (newSchema : Schema) :
    (restart (alterSchema t newSchema)).schema = newSchema ∧
    (newSchema ≠ c.schema →
      (restart (alterSchema t newSchema)).schema ≠ c.schema) :=
  ⟨rfl, fun h => h⟩

/-- Witness for C4: a connector snapshotting a one-column table, restarted
after a column was added. -/
theorem restart_redetects_schema_change_witness :
    (restart (alterSchema (SourceTable.mk ["f1"]) ["f1", "f2"])).schema
        = ["f1", "f2"] ∧
    (restart (alterSchema (SourceTable.mk ["f1"]) ["f1", "f2"])).schema
        ≠ (ConnectorState.mk ["f1"] false).schema :=
  ⟨(restart_redetects_schema_change (ConnectorState.mk ["f1"] false)
      (SourceTable.mk ["f1"]) ["f1", "f2"]).1,
   (restart_redetects_schema_change (ConnectorState.mk ["f1"] false)
      (SourceTable.mk ["f1"]) ["f1", "f2"]).2 (by decide)⟩

end Connector

namespace Cdc

theorem applyEvent_eq (s : CoordState) (e : ChangeEvent) :
    applyEvent s e = match lookupKey s e.row.pk with
      | none => applyEffect s e
      | some rm => if rm.2 < e.mark then applyEffect s e else s := rfl

theorem lookupKey_setKey_self {β : Type} (s : List (PK × β)) (k : PK) (v : β) :
    lookupKey (setKey s k v) k = some v := by
  induction s with
  | nil => simp [setKey, lookupKey]
  | cons x rest ih =>
    by_cases h : x.1 = k <;> simp [setKey, lookupKey, h, ih]

theorem lookupKey_delKey_self {β : Type} (s : List (PK × β)) (k : PK) :
    lookupKey (delKey s k) k = none := by
  induction s with
  | nil => rfl
  | cons x rest ih =>
    by_cases h : x.1 = k <;> simp [delKey, lookupKey, h, ih]

theorem delKey_delKey {β : Type} (s : List (PK × β)) (k : PK) :
    delKey (delKey s k) k = delKey s k := by
  induction s with
  | nil => rfl
  | cons x rest ih =>
    by_cases h : x.1 = k <;> simp [delKey, h, ih]

theorem applyEvent_applyEffect (s : CoordState) (e : ChangeEvent) :
    applyEvent (applyEffect s e) e = applyEffect s e := by
  cases hk : e.kind with
  | insert =>
    have heff : applyEffect s e = setKey s e.row.pk (e.row, e.mark) := by
      unfold applyEffect; rw [hk]
    rw [applyEvent_eq, heff, lookupKey_setKey_self]
    simp
  | update =>
    have heff : applyEffect s e = setKey s e.row.pk (e.row, e.mark) := by
      unfold applyEffect; rw [hk]
    rw [applyEvent_eq, heff, lookupKey_setKey_self]
    simp
  | delete =>
    have heff : applyEffect s e = delKey s e.row.pk := by
      unfold applyEffect; rw [hk]
    rw [applyEvent_eq, heff, lookupKey_delKey_self]
    show applyEffect (delKey s e.row.pk) e = delKey s e.row.pk
    unfold applyEffect
    rw [hk]
    exact delKey_delKey s e.row.pk

/-- C3: applying the same change event twice (same primary key and same
mark) leaves the Merge Coordinator state unchanged after the first
application — the replay is discarded by the last-applied-mark comparison,
so `apply(apply(s, E), E) = apply(s, E)`. -/
theorem applyEvent_idempotent (s : CoordState) (e : ChangeEvent) :
    applyEvent (applyEvent s e) e = applyEvent s e := by
  cases hl : lookupKey s e.row.pk with
  | none =>
    have h1 : applyEvent s e = applyEffect s e := by
      rw [applyEvent_eq, hl]
    rw [h1]
    exact applyEvent_applyEffect s e
  | some rm =>
    by_cases hm : rm.2 < e.mark
    · have h1 : applyEvent s e = applyEffect s e := by
        rw [applyEvent_eq, hl]
        simp [hm]
      rw [h1]
      exact applyEvent_applyEffect s e
    · have h1 : applyEvent s e = s := by
        rw [applyEvent_eq, hl]
        simp [hm]
      rw [h1, h1]

end Cdc

namespace Cdc

theorem matView_setKey (s : CoordState) (k : PK) (r : Row) (m : Mark) :
    matView (setKey s k (r, m)) = setKey (matView s) k r := by
  induction s with
  | nil => rfl
  | cons x rest ih =>
    simp only [matView] at ih
    by_cases h : x.1 = k <;> simp [setKey, matView, h, ih]

theorem matView_delKey (s : CoordState) (k : PK) :
    matView (delKey s k) = delKey (matView s) k := by
  induction s with
  | nil => rfl
  | cons x rest ih =>
    simp only [matView] at ih
    by_cases h : x.1 = k <;> simp [delKey, matView, h, ih]

theorem matView_applyEffect (s : CoordState) (e : ChangeEvent) :
    matView (applyEffect s e) = applyEffectPlain (matView s) e := by
  cases hk : e.kind <;>
    simp [applyEffect, applyEffectPlain, hk, matView_setKey, matView_delKey]

theorem lookupKey_mem {β : Type} :
    ∀ (s : List (PK × β)) (k : PK) (v : β),
      lookupKey s k = some v → (k, v) ∈ s := by
  intro s
  induction s with
  | nil => intro k v h; simp [lookupKey] at h
  | cons x rest ih =>
    intro k v h
    cases x with
    | mk k0 v0 =>
      by_cases hx : k0 = k
      · subst hx
        simp [lookupKey] at h
        subst h
        exact List.mem_cons_self _ _
      · simp [lookupKey, hx] at h
        exact List.mem_cons_of_mem _ (ih k v h)

theorem applyEvent_of_marks_lt (s : CoordState) (e : ChangeEvent)
    (h : ∀ x ∈ s, x.2.2 < e.mark) : applyEvent s e = applyEffect s e := by
  rw [applyEvent_eq]
  cases hl : lookupKey s e.row.pk with
  | none => rfl
  | some rm =>
    have hm : rm.2 < e.mark := h (e.row.pk, rm) (lookupKey_mem s e.row.pk rm hl)
    simp [hm]

theorem mem_setKey {β : Type} :
    ∀ (s : List (PK × β)) (k : PK) (v : β) (x : PK × β),
      x ∈ setKey s k v → x ∈ s ∨ x = (k, v) := by
  intro s
  induction s with
  | nil =>
    intro k v x hx
    simp [setKey] at hx
    exact Or.inr hx
  | cons y rest ih =>
    intro k v x hx
    by_cases h : y.1 = k
    · rw [setKey, if_pos h] at hx
      rcases List.mem_cons.1 hx with h1 | h1
      · exact Or.inr h1
      · exact Or.inl (List.mem_cons_of_mem _ h1)
    · rw [setKey, if_neg h] at hx
      rcases List.mem_cons.1 hx with h1 | h1
      · rw [h1]; exact Or.inl (List.mem_cons_self _ _)
      · rcases ih k v x h1 with h2 | h2
        · exact Or.inl (List.mem_cons_of_mem _ h2)
        · exact Or.inr h2

theorem mem_delKey {β : Type} :
    ∀ (s : List (PK × β)) (k : PK) (x : PK × β),
      x ∈ delKey s k → x ∈ s := by
  intro s
  induction s with
  | nil => intro k x hx; simp [delKey] at hx
  | cons y rest ih =>
    intro k x hx
    by_cases h : y.1 = k
    · rw [delKey, if_pos h] at hx
      exact List.mem_cons_of_mem _ (ih k x hx)
    · rw [delKey, if_neg h] at hx
      rcases List.mem_cons.1 hx with h1 | h1
      · rw [h1]; exact List.mem_cons_self _ _
      · exact List.mem_cons_of_mem _ (ih k x h1)

theorem mem_applyEffect (s : CoordState) (e : ChangeEvent)
    (x : PK × Row × Mark) (hx : x ∈ applyEffect s e) :
    x ∈ s ∨ x.2.2 = e.mark := by
  cases hk : e.kind with
  | insert =>
    have heff : applyEffect s e = setKey s e.row.pk (e.row, e.mark) := by
      unfold applyEffect; rw [hk]
    rw [heff] at hx
    rcases mem_setKey s e.row.pk (e.row, e.mark) x hx with h | h
    · exact Or.inl h
    · right; rw [h]
  | update =>
    have heff : applyEffect s e = setKey s e.row.pk (e.row, e.mark) := by
      unfold applyEffect; rw [hk]
    rw [heff] at hx
    rcases mem_setKey s e.row.pk (e.row, e.mark) x hx with h | h
    · exact Or.inl h
    · right; rw [h]
  | delete =>
    have heff : applyEffect s e = delKey s e.row.pk := by
      unfold applyEffect; rw [hk]
    rw [heff] at hx
    exact Or.inl (mem_delKey s e.row.pk x hx)

theorem matView_deliver :
    ∀ (evs : List ChangeEvent) (s : CoordState),
      (∀ x ∈ s, ∀ e ∈ evs, x.2.2 < e.mark) →
      evs.Pairwise (fun a b => a.mark < b.mark) →
      matView (deliver s evs) = applyAllPlain (matView s) evs := by
  intro evs
  induction evs with
  | nil => intro s _ _; rfl
  | cons e rest ih =>
    intro s hs hp
    have hse : ∀ x ∈ s, x.2.2 < e.mark :=
      fun x hx => hs x hx e (List.mem_cons_self _ _)
    have h1 : applyEvent s e = applyEffect s e := applyEvent_of_marks_lt s e hse
    rw [List.pairwise_cons] at hp
    have hs' : ∀ x ∈ applyEffect s e, ∀ e' ∈ rest, x.2.2 < e'.mark := by
      intro x hx e' he'
      rcases mem_applyEffect s e x hx with h | h
      · exact hs x h e' (List.mem_cons_of_mem _ he')
      · rw [h]; exact hp.1 e' he'
    show matView (deliver (applyEvent s e) rest) =
      applyAllPlain (applyEffectPlain (matView s) e) rest
    rw [h1, ih (applyEffect s e) hs' hp.2, matView_applyEffect]

theorem matView_initState : ∀ (snap : View) (m : Mark),
    matView (initState snap m) = snap := by
  intro snap m
  induction snap with
  | nil => rfl
  | cons x rest ih => simpa [initState, matView] using ih

/-- C2: for every mark `M ≥ snapshot_mark`, once the Log Tailer has
delivered all change events with mark `≤ M` — it emits them in mark order
and never re-emits events at or before `snapshot_mark`, so the delivered
sequence is exactly the events with mark in `(snapshot_mark, M]`, sorted
strictly by mark — the Merge Coordinator's materialized state equals the
`SnapshotSet` with those events applied in mark order (insert/update
overwrite the row, delete removes the key). -/
theorem coordinator_convergence (snap : View) (snapshot_mark M : Mark)
    (evs : List ChangeEvent)
    (hM : snapshot_mark ≤ M)
    (hin : ∀ e ∈ evs, snapshot_mark < e.mark ∧ e.mark ≤ M)
    (hsorted : evs.Pairwise (fun a b => a.mark < b.mark)) :
    matView (deliver (initState snap snapshot_mark) evs) =
      applyAllPlain snap evs := by
  have hmarks : ∀ x ∈ initState snap snapshot_mark, ∀ e ∈ evs,
      x.2.2 < e.mark := by
    intro x hx e he
    have hxm : x.2.2 = snapshot_mark := by
      unfold initState at hx
      rcases List.mem_map.1 hx with ⟨y, _, rfl⟩
      rfl
    rw [hxm]
    exact (hin e he).1
  rw [matView_deliver evs _ hmarks hsorted, matView_initState]

/-- Witness for C2: snapshot `{0 ↦ (0, 5)}` captured at mark 1; the tailer
then delivers an insert of key 2 at mark 2 and a delete of key 0 at mark 3,
with `M = 3`. -/
theorem coordinator_convergence_witness :
    ((1 : Mark) ≤ 3) ∧
    (∀ e ∈ [ChangeEvent.mk ChangeKind.insert (Row.mk 2 7) 2,
            ChangeEvent.mk ChangeKind.delete (Row.mk 0 0) 3],
        (1 : Mark) < e.mark ∧ e.mark ≤ 3) ∧
    ([ChangeEvent.mk ChangeKind.insert (Row.mk 2 7) 2,
      ChangeEvent.mk ChangeKind.delete (Row.mk 0 0) 3].Pairwise
        (fun a b => a.mark < b.mark)) ∧
    matView (deliver (initState [(0, Row.mk 0 5)] 1)
        [ChangeEvent.mk ChangeKind.insert (Row.mk 2 7) 2,
         ChangeEvent.mk ChangeKind.delete (Row.mk 0 0) 3]) =
      applyAllPlain [(0, Row.mk 0 5)]
        [ChangeEvent.mk ChangeKind.insert (Row.mk 2 7) 2,
         ChangeEvent.mk ChangeKind.delete (Row.mk 0 0) 3] :=
  ⟨by decide, by decide, by decide,
    coordinator_convergence [(0, Row.mk 0 5)] 1 3
      [ChangeEvent.mk ChangeKind.insert (Row.mk 2 7) 2,
       ChangeEvent.mk ChangeKind.delete (Row.mk 0 0) 3]
      (by decide) (by decide) (by decide)⟩

end Cdc

namespace Cdc

theorem setKey_eq_append {β : Type} :
    ∀ (s : List (PK × β)) (k : PK) (v : β),
      lookupKey s k = none → setKey s k v = s ++ [(k, v)] := by
  intro s
  induction s with
  | nil => intro k v _; rfl
  | cons x rest ih =>
    intro k v h
    by_cases hx : x.1 = k
    · rw [lookupKey, if_pos hx] at h
      exact absurd h (by simp)
    · rw [lookupKey, if_neg hx] at h
      rw [setKey, if_neg hx, ih k v h]
      rfl

theorem lookupKey_append_none {β : Type} :
    ∀ (s t : List (PK × β)) (k : PK),
      lookupKey s k = none → lookupKey (s ++ t) k = lookupKey t k := by
  intro s
  induction s with
  | nil => intro t k _; rfl
  | cons x rest ih =>
    intro t k h
    by_cases hx : x.1 = k
    · rw [lookupKey, if_pos hx] at h
      exact absurd h (by simp)
    · rw [lookupKey, if_neg hx] at h
      show lookupKey (x :: (rest ++ t)) k = lookupKey t k
      rw [lookupKey, if_neg hx]
      exact ih t k h

theorem lookupKey_singleton_ne {β : Type} (k0 : PK) (v0 : β) (k : PK)
    (h : k0 ≠ k) : lookupKey [(k0, v0)] k = none := by
  simp [lookupKey, h]

theorem applyAllPlain_fresh_length :
    ∀ (evs : List ChangeEvent) (v : View),
      (∀ e ∈ evs, e.kind = ChangeKind.insert) →
      (∀ e ∈ evs, lookupKey v e.row.pk = none) →
      evs.Pairwise (fun a b => a.row.pk ≠ b.row.pk) →
      (applyAllPlain v evs).length = v.length + evs.length := by
  intro evs
  induction evs with
  | nil => intro v _ _ _; simp [applyAllPlain]
  | cons e rest ih =>
    intro v hk hf hp
    rw [List.pairwise_cons] at hp
    have hke : e.kind = ChangeKind.insert := hk e (List.mem_cons_self _ _)
    have hfe : lookupKey v e.row.pk = none := hf e (List.mem_cons_self _ _)
    have h1 : applyEffectPlain v e = v ++ [(e.row.pk, e.row)] := by
      unfold applyEffectPlain
      rw [hke]
      exact setKey_eq_append v e.row.pk e.row hfe
    have hf' : ∀ e' ∈ rest,
        lookupKey (v ++ [(e.row.pk, e.row)]) e'.row.pk = none := by
      intro e' he'
      rw [lookupKey_append_none v _ _ (hf e' (List.mem_cons_of_mem _ he'))]
      exact lookupKey_singleton_ne _ _ _ (hp.1 e' he')
    show (applyAllPlain (applyEffectPlain v e) rest).length = _
    rw [h1, ih (v ++ [(e.row.pk, e.row)])
      (fun e' he' => hk e' (List.mem_cons_of_mem _ he')) hf' hp.2]
    simp [List.length_append]
    omega

theorem lookupKey_graph_none {β : Type} (f : Nat → β) :
    ∀ (l : List Nat) (k : Nat),
      k ∉ l → lookupKey (l.map (fun i => (i, f i))) k = none := by
  intro l
  induction l with
  | nil => intro k _; rfl
  | cons a rest ih =>
    intro k hk
    rw [List.mem_cons] at hk
    push_neg at hk
    have hne : ¬ (a = k) := fun h => hk.1 h.symm
    show lookupKey ((a, f a) :: rest.map (fun i => (i, f i))) k = none
    rw [lookupKey, if_neg hne]
    exact ih k hk.2

theorem scenario_count : ∀ (j n : Nat), j ≤ n →
    rowCount (matView (deliver (initState (snapRows j) j)
      (tailEvents j n))) = n := by
  intro j n hjn
  have hmarks : ∀ x ∈ initState (snapRows j) j, ∀ e ∈ tailEvents j n,
      x.2.2 < e.mark := by
    intro x hx e he
    have hxm : x.2.2 = j := by
      unfold initState at hx
      rcases List.mem_map.1 hx with ⟨y, _, rfl⟩
      rfl
    have hem : j < e.mark := by
      unfold tailEvents at he
      rcases List.mem_map.1 he with ⟨i, hi, rfl⟩
      have hji : j ≤ i := (List.mem_range'_1.1 hi).1
      show j < i + 1
      omega
    rw [hxm]
    exact hem
  have hsorted : (tailEvents j n).Pairwise (fun a b => a.mark < b.mark) := by
    unfold tailEvents
    rw [List.pairwise_map]
    exact (List.pairwise_lt_range' j (n - j)).imp
      (fun hab => Nat.succ_lt_succ hab)
  rw [rowCount, matView_deliver _ _ hmarks hsorted, matView_initState]
  have hkinds : ∀ e ∈ tailEvents j n, e.kind = ChangeKind.insert := by
    intro e he
    unfold tailEvents at he
    rcases List.mem_map.1 he with ⟨i, _, rfl⟩
    rfl
  have hfresh : ∀ e ∈ tailEvents j n,
      lookupKey (snapRows j) e.row.pk = none := by
    intro e he
    unfold tailEvents at he
    rcases List.mem_map.1 he with ⟨i, hi, rfl⟩
    have hji : j ≤ i := (List.mem_range'_1.1 hi).1
    show lookupKey (snapRows j) i = none
    unfold snapRows
    apply lookupKey_graph_none
    rw [List.mem_range]
    omega
  have hdistinct : (tailEvents j n).Pairwise
      (fun a b => a.row.pk ≠ b.row.pk) := by
    unfold tailEvents
    rw [List.pairwise_map]
    exact (List.pairwise_lt_range' j (n - j)).imp
      (fun hab => Nat.ne_of_lt hab)
  rw [applyAllPlain_fresh_length (tailEvents j n) (snapRows j)
    hkinds hfresh hdistinct]
  have hsl : (snapRows j).length = j := by simp [snapRows]
  have htl : (tailEvents j n).length = n - j := by simp [tailEvents]
  rw [hsl, htl]
  omega

/-- C1: `_make_inserts(txns, txn_size)` reports a record count of
`txns * txn_size`, and the verification query's expected value equals
`initial_records + concurrent_records`; in the many-inserts scenario —
1,000,000 pre-existing rows plus 1000 transactions of 100 inserts running
concurrently with source creation — for every interleaving (snapshot
captured after any `j ≥ initial_records` of the 1,100,000 row commits, the
log tailer delivering the rest), the final row count observed from the
source is exactly 1,100,000. -/
theorem many_inserts_final_count (txns txn_size j : Nat)
    (h1 : MysqlCdc.initial_records ≤ j)
    (h2 : j ≤ MysqlCdc.expected_count) :
    (MysqlCdc.make_inserts txns txn_size).2 = txns * txn_size ∧
    MysqlCdc.expected_count
        = MysqlCdc.initial_records + MysqlCdc.concurrent_records ∧
    rowCount (matView (deliver (initState (snapRows j) j)
        (tailEvents j MysqlCdc.expected_count))) = 1100000 := by
  refine ⟨rfl, rfl, ?_⟩
  rw [scenario_count j MysqlCdc.expected_count h2]
  decide

/-- Witness for C1: the snapshot captured right at the end of the initial
load (`j = 1,000,000`), all 100,000 concurrent inserts arriving through the
log tailer. -/
theorem many_inserts_final_count_witness :
    (MysqlCdc.initial_records ≤ 1000000) ∧
    (1000000 ≤ MysqlCdc.expected_count) ∧
    ((MysqlCdc.make_inserts 1000 100).2 = 1000 * 100 ∧
     MysqlCdc.expected_count
         = MysqlCdc.initial_records + MysqlCdc.concurrent_records ∧
     rowCount (matView (deliver (initState (snapRows 1000000) 1000000)
        (tailEvents 1000000 MysqlCdc.expected_count))) = 1100000) :=
  ⟨by decide, by decide,
    many_inserts_final_count 1000 100 1000000 (by decide) (by decide)⟩

end Cdc
